import Mathlib

/-!
Verification development for the deterministic clinical simulation kernel
(popsim).  The definitions below are shallow embeddings of the TypeScript
sources: the seedable xorshift RNG (`src/rng.ts`), the event-driven kernel
(`src/kernel.ts`), and the month-stepped module runtime (`src/sim.ts`).
JavaScript 32-bit integers are modelled as naturals reduced mod 2^32;
JavaScript doubles are modelled as rationals (with explicit NaN/Infinity
constructors where the code branches on them); JS objects / Maps are
modelled as association lists with JS-faithful update semantics
(updating an existing key keeps its position, a new key is appended).
-/

/-! ## Association-list helpers (JS object / Map semantics) -/

/-- Lookup in an association list (first binding wins, as in a JS `Map`). -/
def alistGet {α β : Type} [DecidableEq α] (k : α) : List (α × β) → Option β
  | [] => none
  | (k', v) :: rest => if k' = k then some v else alistGet k rest

/-- Update an association list the way `Map.set` / object spread updates do:
an existing key keeps its position, a new key is appended at the end. -/
def alistSet {α β : Type} [DecidableEq α] (k : α) (v : β) : List (α × β) → List (α × β)
  | [] => [(k, v)]
  | (k', v') :: rest => if k' = k then (k, v) :: rest else (k', v') :: alistSet k v rest

/-- Remove a key, as `Map.delete` does. -/
def alistRemove {α β : Type} [DecidableEq α] (k : α) : List (α × β) → List (α × β)
  | [] => []
  | (k', v') :: rest => if k' = k then rest else (k', v') :: alistRemove k rest

theorem alistGet_set_self {α β : Type} [DecidableEq α] (k : α) (v : β) (l : List (α × β)) :
    alistGet k (alistSet k v l) = some v := by
  induction l with
  | nil => simp [alistGet, alistSet]
  | cons hd tl ih =>
    obtain ⟨k', v'⟩ := hd
    by_cases h : k' = k <;> simp [alistGet, alistSet, h, ih]

theorem alistGet_set_ne {α β : Type} [DecidableEq α] (k k' : α) (v : β) (l : List (α × β))
    (h : k ≠ k') : alistGet k' (alistSet k v l) = alistGet k' l := by
  induction l with
  | nil => simp [alistGet, alistSet, h]
  | cons hd tl ih =>
    obtain ⟨k0, v0⟩ := hd
    by_cases h0 : k0 = k
    · subst h0
      simp [alistGet, alistSet, h]
    · simp only [alistSet, if_neg h0]
      by_cases h1 : k0 = k' <;> simp [alistGet, h1, ih]

theorem alistSet_idem {α β : Type} [DecidableEq α] (k : α) (v : β) (l : List (α × β)) :
    alistSet k v (alistSet k v l) = alistSet k v l := by
  induction l with
  | nil => simp [alistSet]
  | cons hd tl ih =>
    obtain ⟨k', v'⟩ := hd
    by_cases h : k' = k
    · simp [alistSet, h]
    · simp [alistSet, h, ih]

/-! ## The kernel RNG (`src/rng.ts`)

A 32-bit xorshift generator.  `Math.imul` is multiplication mod 2^32,
`>>> 0` is reduction mod 2^32, and the bitwise operators act on the
32-bit two's-complement pattern, which for non-negative naturals below
2^32 coincides with plain `Nat` bitwise operations. -/

namespace KRng

/-- 2^32, the JS unsigned 32-bit modulus. -/
def U32 : ℕ := 2 ^ 32

/-- The golden-ratio constant `TAU = 0x9e3779b9` from `rng.ts`. -/
def TAU : ℕ := 0x9e3779b9

/-- `Math.imul(a, b)`: 32-bit integer multiplication. -/
def imul (a b : ℕ) : ℕ := (a * b) % U32

/-- The `mix(seed, value)` finalizer from `rng.ts`. -/
def mix (seed value : ℕ) : ℕ :=
  let x0 := (seed ^^^ value) % U32
  let x1 := imul (x0 ^^^ (x0 >>> 16)) 0x45d9f3b
  let x2 := imul (x1 ^^^ (x1 >>> 16)) 0x45d9f3b
  x2 ^^^ (x2 >>> 16)

/-- The `hashString(str, seed)` stable string hash from `rng.ts`;
`charCodeAt` is the UTF-16 code unit, which for the ASCII namespace
strings used by the kernel equals `Char.toNat`. -/
def hashString (s : String) (seed : ℕ) : ℕ :=
  mix (s.data.foldl (fun h c => imul (h ^^^ c.toNat) TAU) (seed % U32)) s.length

/-- One xorshift32 step: `x ^= x << 13; x ^= x >>> 17; x ^= x << 5`,
with the final `>>> 0` reduction. -/
def xsStep (x : ℕ) : ℕ :=
  let x1 := (x ^^^ (x <<< 13)) % U32
  let x2 := x1 ^^^ (x1 >>> 17)
  (x2 ^^^ (x2 <<< 5)) % U32

/-- The `RNG` constructor: `this.state = seed >>> 0 || 1` (a zero seed is
remapped to one). -/
def mkRNG (seed : ℕ) : ℕ :=
  let s := seed % U32
  if s = 0 then 1 else s

/-- `next()`: advance the state and return `state / 0xffffffff`
together with the new state. -/
def next (s : ℕ) : ℚ × ℕ :=
  let s' := xsStep s
  ((s' : ℚ) / 4294967295, s')

/-- `float()`: a `next()` draw with the `u === 1` endpoint remapped to
`0.9999999995`. -/
def float (s : ℕ) : ℚ × ℕ :=
  let p := next s
  (if p.1 = 1 then (9999999995 : ℚ) / 10000000000 else p.1, p.2)

/-- `child(namespace)`: derive a child RNG state by mixing the current
state with a stable hash of the namespace; the parent state is not
written.  The `RNG` constructor applied to the mixed seed performs the
zero remap. -/
def child (s : ℕ) (ns : String) : ℕ :=
  mkRNG (mix s (hashString ns (s ^^^ TAU)))

/-- The state after `n` draws. -/
def stateN (s n : ℕ) : ℕ := xsStep^[n] s

/-- The value of the `n`-th `float()` draw (0-indexed) from initial
constructor seed `seed`. -/
def floatAt (seed n : ℕ) : ℚ := (float (stateN (mkRNG seed) n)).1

/-- The list of the first `k` `float()` values from state `s`. -/
def streamOf (s : ℕ) : ℕ → List ℚ
  | 0 => []
  | k + 1 =>
    let p := float s
    p.1 :: streamOf p.2 k

end KRng

/-! ## C9: the kernel RNG state never reaches zero, so `float()` lies in (0,1) -/

namespace KRng

theorem exists_least_bit {x : ℕ} (hx : x ≠ 0) :
    ∃ i, x.testBit i = true ∧ ∀ j, j < i → x.testBit j = false := by
  classical
  obtain ⟨i, hi, _⟩ := Nat.exists_most_significant_bit hx
  have hP : ∃ j, x.testBit j = true := ⟨i, hi⟩
  refine ⟨Nat.find hP, Nat.find_spec hP, ?_⟩
  intro j hj
  have := Nat.find_min hP hj
  simpa using this

/-- An `x ^= x << k` step (with 32-bit truncation) cannot zero a nonzero
word: the least set bit of `x` survives. -/
theorem xor_shiftLeft_mod_ne_zero {x k w : ℕ} (hx : x ≠ 0) (hxlt : x < 2 ^ w) (hk : 0 < k) :
    (x ^^^ (x <<< k)) % 2 ^ w ≠ 0 := by
  obtain ⟨i, hi, hleast⟩ := exists_least_bit hx
  have hiw : i < w := by
    by_contra hcon
    push_neg at hcon
    have hxi : x < 2 ^ i := lt_of_lt_of_le hxlt (Nat.pow_le_pow_right (by norm_num) hcon)
    rw [Nat.testBit_lt_two_pow hxi] at hi
    exact Bool.noConfusion hi
  intro h0
  have hbit : ((x ^^^ (x <<< k)) % 2 ^ w).testBit i = false := by
    rw [h0]; exact Nat.zero_testBit i
  rw [Nat.testBit_mod_two_pow, Nat.testBit_xor, Nat.testBit_shiftLeft] at hbit
  have hshl : (decide (i ≥ k) && x.testBit (i - k)) = false := by
    by_cases hik : i ≥ k
    · have hik' : i - k < i := by omega
      simp [hik, hleast _ hik']
    · simp [hik]
  rw [hshl, hi] at hbit
  simp [hiw] at hbit

/-- An `x ^= x >>> k` step cannot zero a nonzero word: the most
significant bit survives. -/
theorem xor_shiftRight_ne_zero {x k : ℕ} (hx : x ≠ 0) (hk : 0 < k) :
    x ^^^ (x >>> k) ≠ 0 := by
  obtain ⟨i, hi, hmost⟩ := Nat.exists_most_significant_bit hx
  intro h0
  have hbit : (x ^^^ (x >>> k)).testBit i = false := by
    rw [h0]; exact Nat.zero_testBit i
  rw [Nat.testBit_xor, Nat.testBit_shiftRight, hi, hmost (k + i) (by omega)] at hbit
  simp at hbit

theorem xsStep_lt (x : ℕ) : xsStep x < U32 := by
  unfold xsStep U32
  exact Nat.mod_lt _ (by norm_num)

theorem xsStep_ne_zero {x : ℕ} (hx : x ≠ 0) (hlt : x < U32) : xsStep x ≠ 0 := by
  unfold xsStep
  have h1 : (x ^^^ (x <<< 13)) % 2 ^ 32 ≠ 0 :=
    xor_shiftLeft_mod_ne_zero hx hlt (by norm_num)
  have h1lt : (x ^^^ (x <<< 13)) % 2 ^ 32 < 2 ^ 32 := Nat.mod_lt _ (by norm_num)
  have h2 : ((x ^^^ (x <<< 13)) % 2 ^ 32) ^^^ (((x ^^^ (x <<< 13)) % 2 ^ 32) >>> 17) ≠ 0 :=
    xor_shiftRight_ne_zero h1 (by norm_num)
  exact xor_shiftLeft_mod_ne_zero h2 (by
    have hr : ((x ^^^ (x <<< 13)) % 2 ^ 32) >>> 17 < 2 ^ 32 := by
      rw [Nat.shiftRight_eq_div_pow]
      exact lt_of_le_of_lt (Nat.div_le_self _ _) h1lt
    exact Nat.xor_lt_two_pow h1lt hr) (by norm_num)

theorem mkRNG_pos (seed : ℕ) : 0 < mkRNG seed ∧ mkRNG seed < U32 := by
  unfold mkRNG U32
  by_cases h : seed % 2 ^ 32 = 0
  · rw [if_pos h]
    norm_num
  · rw [if_neg h]
    exact ⟨Nat.pos_of_ne_zero h, Nat.mod_lt _ (by norm_num)⟩

theorem stateN_pos (seed n : ℕ) : 0 < stateN (mkRNG seed) n ∧ stateN (mkRNG seed) n < U32 := by
  induction n with
  | zero => simpa [stateN] using mkRNG_pos seed
  | succ k ih =>
    have hstep : stateN (mkRNG seed) (k + 1) = xsStep (stateN (mkRNG seed) k) := by
      simp [stateN, Function.iterate_succ_apply']
    rw [hstep]
    exact ⟨Nat.pos_of_ne_zero (xsStep_ne_zero (Nat.pos_iff_ne_zero.mp ih.1) ih.2),
      xsStep_lt _⟩

theorem float_mem_Ioo {s : ℕ} (hpos : 0 < s) (hlt : s < U32) :
    0 < (float s).1 ∧ (float s).1 < 1 := by
  have hs' : 0 < xsStep s := Nat.pos_of_ne_zero (xsStep_ne_zero (Nat.pos_iff_ne_zero.mp hpos) hlt)
  have hs'lt : xsStep s < U32 := xsStep_lt s
  have hle : (xsStep s : ℚ) ≤ 4294967295 := by
    have : xsStep s ≤ 4294967295 := by
      have := hs'lt; unfold U32 at this; omega
    exact_mod_cast this
  have hposq : (0 : ℚ) < (xsStep s : ℚ) := by exact_mod_cast hs'
  unfold float next
  by_cases h1 : (xsStep s : ℚ) / 4294967295 = 1
  · simp only [h1, if_pos rfl]
    norm_num
  · simp only [if_neg h1]
    constructor
    · positivity
    · rcases lt_or_eq_of_le (div_le_one_of_le₀ hle (by norm_num)) with h | h
      · exact h
      · exact absurd h h1

/-- C9: for every 32-bit seed (zero included, being remapped to one by the
constructor) and every number of preceding draws, the kernel RNG `float()`
draw is strictly between 0 and 1. -/
theorem C9_kernel_float_open_unit :
    (∀ seed n : ℕ, 0 < floatAt seed n ∧ floatAt seed n < 1) ∧ mkRNG 0 = 1 := by
  refine ⟨fun seed n => ?_, rfl⟩
  have h := stateN_pos seed n
  exact float_mem_Ioo h.1 h.2

/-! ## C7: child derivation and stream isolation

The TypeScript `RNG` is a mutable object; `child` allocates a fresh
object and only `next`/`float` write `this.state`.  Object identity is
modelled by a heap of RNG states: `childAt` appends a fresh cell derived
from cell `i`, `drawAt` draws from a cell in place. -/

abbrev Heap := List ℕ

/-- `rng.child(ns)` on the object stored in cell `i`: a fresh cell is
appended, no existing cell is written. -/
def childAt (h : Heap) (i : ℕ) (ns : String) : Heap :=
  h ++ [child (h.getD i 0) ns]

/-- `rng.float()` on the object stored in cell `i`: the cell is updated
in place. -/
def drawAt (h : Heap) (i : ℕ) : Heap × ℚ :=
  let p := float (h.getD i 0)
  (h.set i p.2, p.1)

/-- `k` successive draws from cell `i`. -/
def drawsAt (h : Heap) (i : ℕ) : ℕ → Heap
  | 0 => h
  | k + 1 => drawsAt (drawAt h i).1 i k

theorem childAt_getD_of_lt (h : Heap) (i : ℕ) (ns : String) {j : ℕ} (hj : j < h.length) :
    (childAt h i ns).getD j 0 = h.getD j 0 := by
  unfold childAt
  exact List.getD_append _ _ _ _ hj

theorem childAt_new_cell (h : Heap) (i : ℕ) (ns : String) :
    (childAt h i ns).getD h.length 0 = child (h.getD i 0) ns := by
  unfold childAt
  rw [List.getD_eq_getElem?_getD, List.getElem?_concat_length]
  rfl

theorem drawAt_getD_ne (h : Heap) (i j : ℕ) (hij : i ≠ j) :
    (drawAt h i).1.getD j 0 = h.getD j 0 := by
  unfold drawAt
  rw [List.getD_eq_getElem?_getD, List.getElem?_set_ne hij, ← List.getD_eq_getElem?_getD]

theorem drawsAt_getD_ne (h : Heap) (i j : ℕ) (hij : i ≠ j) (k : ℕ) :
    (drawsAt h i k).getD j 0 = h.getD j 0 := by
  induction k generalizing h with
  | zero => rfl
  | succ m ih =>
    show (drawsAt (drawAt h i).1 i m).getD j 0 = h.getD j 0
    rw [ih, drawAt_getD_ne h i j hij]

/-- C7: (parent untouched) deriving a child from cell `i` leaves every
existing cell, in particular the parent, unchanged; (determinism)
children derived under the same namespace from parents in identical
states are identical, hence (same parent, same namespace twice, even
after an intervening derivation) the two derived cells hold equal
states and produce equal draw streams; (isolation) any number of draws
from the cell holding `child(nsA)` leaves the state, and hence the draw
stream, of the sibling cell holding `child(nsB)` unchanged. -/
theorem C7_child_isolation :
    (∀ (h : Heap) (i : ℕ) (ns : String) (j : ℕ), j < h.length →
        (childAt h i ns).getD j 0 = h.getD j 0)
    ∧ (∀ (s1 s2 : ℕ) (ns : String), s1 = s2 →
        ∀ k, streamOf (child s1 ns) k = streamOf (child s2 ns) k)
    ∧ (∀ (h : Heap) (i : ℕ) (ns : String), i < h.length →
        (childAt (childAt h i ns) i ns).getD (h.length + 1) 0
          = (childAt h i ns).getD h.length 0)
    ∧ (∀ (h : Heap) (i : ℕ) (nsA nsB : String) (k m : ℕ),
        streamOf ((drawsAt (childAt (childAt h i nsA) i nsB) (h.length) k).getD
            (h.length + 1) 0) m
          = streamOf ((childAt (childAt h i nsA) i nsB).getD (h.length + 1) 0) m) := by
  refine ⟨fun h i ns j hj => childAt_getD_of_lt h i ns hj, ?_, ?_, ?_⟩
  · intro s1 s2 ns hs k
    rw [hs]
  · intro h i ns hi
    have hlen : (childAt h i ns).length = h.length + 1 := by
      unfold childAt; simp
    have h2 : (childAt (childAt h i ns) i ns).getD (h.length + 1) 0
        = child ((childAt h i ns).getD i 0) ns := by
      have := childAt_new_cell (childAt h i ns) i ns
      rwa [hlen] at this
    rw [h2, childAt_getD_of_lt h i ns hi, childAt_new_cell h i ns]
  · intro h i nsA nsB k m
    rw [drawsAt_getD_ne _ _ _ (by omega) k]

end KRng

/-! ## The module runtime (`src/sim.ts`)

The month-stepped driver has its own `RNG` class with the same xorshift
core but a different constructor: `this.state = seed >>> 0` performs no
zero remap.  `uniform(a=0,b=1)` is `a + (b-a)*next()`, which at the
default bounds is exactly `next()`. -/

namespace MSim

/-- The `sim.ts` `RNG` constructor: `this.state = seed >>> 0` (no `|| 1`
zero remap, unlike the kernel RNG). -/
def simState0 (seed : ℕ) : ℕ := seed % KRng.U32

/-- The per-patient seed `(world.seed + i*7919) >>> 0` from
`runSimulation`. -/
def simSeedOf (worldSeed i : ℕ) : ℕ := (worldSeed + i * 7919) % KRng.U32

/-- `uniform()` at the default bounds: `0 + (1-0)*next()`, where `next()`
advances the xorshift state and divides by `0xffffffff`. -/
def uniform (s : ℕ) : ℚ × ℕ :=
  let s' := KRng.xsStep s
  ((s' : ℚ) / 4294967295, s')

/-- The state after `n` draws from constructor seed `seed`. -/
def simStateN (seed n : ℕ) : ℕ := KRng.xsStep^[n] (simState0 seed)

/-- The value of the `n`-th `uniform()` draw (0-indexed). -/
def uniformAt (seed n : ℕ) : ℚ := (uniform (simStateN seed n)).1

theorem simStateN_zero (n : ℕ) : simStateN 0 n = 0 := by
  induction n with
  | zero => rfl
  | succ k ih =>
    show KRng.xsStep^[k + 1] (simState0 0) = 0
    rw [Function.iterate_succ_apply']
    show KRng.xsStep (simStateN 0 k) = 0
    rw [ih]
    rfl

theorem uniform_nonneg_le_one (s : ℕ) : 0 ≤ (uniform s).1 ∧ (uniform s).1 ≤ 1 := by
  unfold uniform
  constructor
  · positivity
  · have hlt : KRng.xsStep s < KRng.U32 := KRng.xsStep_lt s
    have hle : (KRng.xsStep s : ℚ) ≤ 4294967295 := by
      have : KRng.xsStep s ≤ 4294967295 := by
        unfold KRng.U32 at hlt; omega
      exact_mod_cast this
    exact div_le_one_of_le₀ hle (by norm_num)

end MSim

/-- C10: the module runtime RNG does not remap a zero seed.  For every
world seed and patient index whose derived per-patient seed is
`0 mod 2^32`, the xorshift state is zero and stays zero, so every
`uniform()` draw is exactly 0 — unlike the kernel RNG constructor, which
maps seed 0 to state 1. -/
theorem C10_sim_zero_seed_stuck :
    (∀ w i : ℕ, MSim.simSeedOf w i = 0 →
        ∀ n : ℕ, MSim.simStateN (MSim.simSeedOf w i) n = 0
          ∧ MSim.uniformAt (MSim.simSeedOf w i) n = 0)
    ∧ KRng.mkRNG 0 = 1 := by
  refine ⟨?_, rfl⟩
  intro w i h n
  rw [h]
  refine ⟨MSim.simStateN_zero n, ?_⟩
  unfold MSim.uniformAt MSim.uniform
  rw [MSim.simStateN_zero n]
  norm_num
  rfl

/-- Witness for C10 at world seed 4294959377 = 2^32 − 7919 and patient
index 1, whose per-patient seed is exactly 2^32 ≡ 0. -/
theorem C10_sim_zero_seed_stuck_witness :
    MSim.simSeedOf 4294959377 1 = 0
      ∧ (MSim.simStateN (MSim.simSeedOf 4294959377 1) 2 = 0
          ∧ MSim.uniformAt (MSim.simSeedOf 4294959377 1) 2 = 0) :=
  ⟨by decide, C10_sim_zero_seed_stuck.1 4294959377 1 (by decide) 2⟩

/-- Witness for C7 on the one-cell heap `[123]`. -/
theorem C7_child_isolation_witness :
    ((0 : ℕ) < ([123] : KRng.Heap).length
      ∧ (KRng.childAt [123] 0 ("lab")).getD 0 0 = ([123] : KRng.Heap).getD 0 0)
    ∧ ((5 : ℕ) = 5
      ∧ KRng.streamOf (KRng.child 5 ("lab")) 2 = KRng.streamOf (KRng.child 5 ("lab")) 2)
    ∧ (KRng.childAt (KRng.childAt [123] 0 ("lab")) 0 ("lab")).getD 2 0
        = (KRng.childAt [123] 0 ("lab")).getD 1 0 :=
  ⟨⟨by decide, KRng.C7_child_isolation.1 [123] 0 ("lab") 0 (by decide)⟩,
   ⟨rfl, KRng.C7_child_isolation.2.1 5 5 ("lab") rfl 2⟩,
   KRng.C7_child_isolation.2.2.1 [123] 0 ("lab") (by decide)⟩

/-! ## Attribute clamping in the module runtime (`clampVal` in `src/sim.ts`) -/

namespace MSim

/-- A JS number as the clamp sees it: a finite rational or one of the
special values the code tests with `Number.isNaN` / `Number.isFinite`. -/
inductive JSNum where
  | finite (q : ℚ)
  | nan
  | posInf
  | negInf
deriving DecidableEq

/-- A JS attribute value (`AttrValue = number | string | boolean`). -/
inductive JSVal where
  | num (x : JSNum)
  | str (s : String)
  | bool (b : Bool)
deriving DecidableEq

/-- `AttrLimits = { min?: number; max?: number }` (the description field
plays no role in clamping). -/
structure AttrLimits where
  min : Option ℚ := none
  max : Option ℚ := none
deriving DecidableEq

/-- The `lim.max` arm of `clampVal`: `if (lim.max != null && v > lim.max)
return lim.max; return v`. -/
def clampMax (q : ℚ) : Option ℚ → ℚ
  | some hi => if hi < q then hi else q
  | none => q

/-- The sequential min-then-max clamp of a finite number. -/
def clampMin (q : ℚ) (lo? hi? : Option ℚ) : ℚ :=
  match lo? with
  | some lo => if q < lo then lo else clampMax q hi?
  | none => clampMax q hi?

/-- `clampVal(v, lim)` from `src/sim.ts`: non-numbers and missing limits
pass through; NaN and infinities become 0; finite numbers are clamped
to the declared limits. -/
def clampVal : JSVal → Option AttrLimits → JSVal
  | JSVal.num x, some lim =>
    match x with
    | JSNum.finite q => JSVal.num (JSNum.finite (clampMin q lim.min lim.max))
    | _ => JSVal.num (JSNum.finite 0)
  | v, _ => v

/-- `ctx.setAttr(id, v)`: store `clampVal(v, limits[id])`. -/
def ctxSetAttr (limits : List (String × AttrLimits)) (attrs : List (String × JSVal))
    (id : String) (v : JSVal) : List (String × JSVal) :=
  alistSet id (clampVal v (alistGet id limits)) attrs

theorem clampMin_bounds (q lo hi : ℚ) (h : lo ≤ hi) :
    lo ≤ clampMin q (some lo) (some hi) ∧ clampMin q (some lo) (some hi) ≤ hi := by
  simp only [clampMin, clampMax]
  split_ifs <;> constructor <;> linarith

theorem clampMin_idem (q lo hi : ℚ) (h : lo ≤ hi) :
    clampMin (clampMin q (some lo) (some hi)) (some lo) (some hi)
      = clampMin q (some lo) (some hi) := by
  simp only [clampMin, clampMax]
  split_ifs <;> linarith

end MSim

/-- C8 counterexample: `v = Infinity` is a JS number (`typeof v ===
"number"`), yet with limits `[5, 10]` the stored value is 0, which is
below the lower limit, falsifying `lo ≤ stored`. -/
theorem C8_counterexample :
    alistGet ("bmi")
        (MSim.ctxSetAttr [(("bmi" : String), ⟨some 5, some 10⟩)] []
          ("bmi") (MSim.JSVal.num MSim.JSNum.posInf))
      = some (MSim.JSVal.num (MSim.JSNum.finite 0))
    ∧ ¬ ((5 : ℚ) ≤ 0) := by
  constructor
  · rfl
  · norm_num

/-- C8 amended: for every FINITE numeric `v` and a key with declared
limits `lo ≤ hi`, the stored value lies in `[lo, hi]`, and `setAttr`
applied again to the stored value stores the same value. -/
theorem C8_amended_clamp_idempotent (limits : List (String × MSim.AttrLimits))
    (attrs : List (String × MSim.JSVal)) (id : String) (q lo hi : ℚ)
    (hlim : alistGet id limits = some ⟨some lo, some hi⟩) (hlohi : lo ≤ hi) :
    ∃ w : ℚ,
      alistGet id (MSim.ctxSetAttr limits attrs id (MSim.JSVal.num (MSim.JSNum.finite q)))
          = some (MSim.JSVal.num (MSim.JSNum.finite w))
      ∧ lo ≤ w ∧ w ≤ hi
      ∧ MSim.ctxSetAttr limits
            (MSim.ctxSetAttr limits attrs id (MSim.JSVal.num (MSim.JSNum.finite q)))
            id (MSim.JSVal.num (MSim.JSNum.finite w))
          = MSim.ctxSetAttr limits attrs id (MSim.JSVal.num (MSim.JSNum.finite q)) := by
  refine ⟨MSim.clampMin q (some lo) (some hi), ?_, (MSim.clampMin_bounds q lo hi hlohi).1,
    (MSim.clampMin_bounds q lo hi hlohi).2, ?_⟩
  · unfold MSim.ctxSetAttr
    rw [hlim]
    exact alistGet_set_self _ _ _
  · unfold MSim.ctxSetAttr
    rw [hlim]
    show alistSet id (MSim.clampVal (MSim.JSVal.num (MSim.JSNum.finite
        (MSim.clampMin q (some lo) (some hi)))) (some ⟨some lo, some hi⟩)) _ = _
    have : MSim.clampVal (MSim.JSVal.num (MSim.JSNum.finite
        (MSim.clampMin q (some lo) (some hi)))) (some ⟨some lo, some hi⟩)
        = MSim.JSVal.num (MSim.JSNum.finite (MSim.clampMin q (some lo) (some hi))) := by
      show MSim.JSVal.num (MSim.JSNum.finite (MSim.clampMin (MSim.clampMin q (some lo) (some hi))
          (some lo) (some hi))) = _
      rw [MSim.clampMin_idem q lo hi hlohi]
    rw [this]
    exact alistSet_idem _ _ _

/-- Witness for C8 at `q = 42`, limits `[0, 10]`. -/
theorem C8_amended_clamp_idempotent_witness :
    alistGet ("bmi") [(("bmi" : String), (⟨some 0, some 10⟩ : MSim.AttrLimits))]
        = some ⟨some 0, some 10⟩
    ∧ (0 : ℚ) ≤ 10
    ∧ ∃ w : ℚ,
      alistGet ("bmi") (MSim.ctxSetAttr [(("bmi" : String), ⟨some 0, some 10⟩)] []
          ("bmi") (MSim.JSVal.num (MSim.JSNum.finite 42)))
          = some (MSim.JSVal.num (MSim.JSNum.finite w))
      ∧ (0 : ℚ) ≤ w ∧ w ≤ 10
      ∧ MSim.ctxSetAttr [(("bmi" : String), ⟨some 0, some 10⟩)]
            (MSim.ctxSetAttr [(("bmi" : String), ⟨some 0, some 10⟩)] []
              ("bmi") (MSim.JSVal.num (MSim.JSNum.finite 42)))
            ("bmi") (MSim.JSVal.num (MSim.JSNum.finite w))
          = MSim.ctxSetAttr [(("bmi" : String), ⟨some 0, some 10⟩)] []
              ("bmi") (MSim.JSVal.num (MSim.JSNum.finite 42)) :=
  ⟨by decide, by norm_num,
    C8_amended_clamp_idempotent [(("bmi" : String), ⟨some 0, some 10⟩)] [] ("bmi") 42 0 10
      (by decide) (by norm_num)⟩

/-! ## Routine-encounter series (`scheduleEncounterSeries` in `src/sim.ts`) -/

namespace MSim

/-- The cadence selection from `runSimulation`:
`youngCadence = startAge < 40 ? 14 : 18;`
`seniorCadence = startAge >= 65 ? 10 : youngCadence;`. -/
def simCadence (startAge : ℚ) : ℚ :=
  let young := if startAge < 40 then (14 : ℚ) else 18
  if 65 ≤ startAge then 10 else young

/-- The series horizon `Math.min(maxAge, startAge + 35)` with
`maxAge = 115`. -/
def encHorizon (startAge : ℚ) : ℚ := min 115 (startAge + 35)

/-- One inter-encounter gap: `jitter = (u - 0.5) * 0.25` (years),
`stepYears = Math.max(0.5, meanMonths / 12 + jitter)`. -/
def encStep (meanMonths u : ℚ) : ℚ :=
  max (1 / 2) (meanMonths / 12 + (u - 1 / 2) * (1 / 4))

/-- The `while (next < horizon)` loop of `scheduleEncounterSeries`,
threading the patient RNG state and returning the scheduled encounter
times.  The loop always terminates in the source because each step is at
least half a year; the fuel only majorizes the iteration count. -/
def encSeries (startAge meanMonths : ℚ) : ℕ → ℚ → ℕ → List ℚ
  | 0, _, _ => []
  | f + 1, nxt, rs =>
    if nxt < encHorizon startAge then
      let p := uniform rs
      nxt :: encSeries startAge meanMonths f (nxt + encStep meanMonths p.1) p.2
    else []

/-- `scheduleEncounterSeries(beginAge, meanMonths)`: the first candidate
time is `Math.max(beginAge, startAge + 0.25)`. -/
def scheduleEncounterSeries (fuel : ℕ) (startAge beginAge meanMonths : ℚ) (rs : ℕ) : List ℚ :=
  encSeries startAge meanMonths fuel (max beginAge (startAge + 1 / 4)) rs

theorem encStep_ge_half (meanMonths u : ℚ) : 1 / 2 ≤ encStep meanMonths u :=
  le_max_left _ _

theorem encSeries_head (startAge meanMonths : ℚ) (f : ℕ) (nxt : ℚ) (rs : ℕ) :
    encSeries startAge meanMonths f nxt rs = []
      ∨ (encSeries startAge meanMonths f nxt rs).head? = some nxt := by
  cases f with
  | zero => exact Or.inl rfl
  | succ k =>
    by_cases h : nxt < encHorizon startAge
    · right
      simp [encSeries, h]
    · left
      simp [encSeries, h]

theorem encSeries_mem_bounds (startAge meanMonths : ℚ) (f : ℕ) (nxt : ℚ) (rs : ℕ) :
    ∀ t ∈ encSeries startAge meanMonths f nxt rs, nxt ≤ t ∧ t < encHorizon startAge := by
  induction f generalizing nxt rs with
  | zero => intro t ht; simp [encSeries] at ht
  | succ k ih =>
    intro t ht
    by_cases h : nxt < encHorizon startAge
    · simp only [encSeries, if_pos h, List.mem_cons] at ht
      rcases ht with rfl | ht
      · exact ⟨le_refl t, h⟩
      · have := ih _ _ t ht
        have hstep := encStep_ge_half meanMonths (uniform rs).1
        exact ⟨by linarith [this.1], this.2⟩
    · simp [encSeries, if_neg h] at ht

theorem encSeries_chain (startAge meanMonths : ℚ) (f : ℕ) (nxt : ℚ) (rs : ℕ) :
    List.Chain' (fun a b =>
        max (1 / 2) (meanMonths / 12 - 1 / 8) ≤ b - a
          ∧ b - a ≤ max (1 / 2) (meanMonths / 12 + 1 / 8))
      (encSeries startAge meanMonths f nxt rs) := by
  induction f generalizing nxt rs with
  | zero => simp [encSeries]
  | succ k ih =>
    by_cases h : nxt < encHorizon startAge
    · simp only [encSeries, if_pos h]
      rw [List.chain'_cons']
      refine ⟨?_, ih _ _⟩
      intro y hy
      rcases encSeries_head startAge meanMonths k (nxt + encStep meanMonths (uniform rs).1)
          (uniform rs).2 with hnil | hhead
      · rw [hnil] at hy; simp at hy
      · rw [hhead] at hy
        cases hy
        have hu := uniform_nonneg_le_one rs
        constructor
        · have h1 : meanMonths / 12 - 1 / 8 ≤ meanMonths / 12 + ((uniform rs).1 - 1 / 2) * (1 / 4) := by
            nlinarith [hu.1, hu.2]
          have : max (1 / 2) (meanMonths / 12 - 1 / 8) ≤ encStep meanMonths (uniform rs).1 :=
            max_le_max (le_refl _) h1
          linarith [this]
        · have h2 : meanMonths / 12 + ((uniform rs).1 - 1 / 2) * (1 / 4) ≤ meanMonths / 12 + 1 / 8 := by
            nlinarith [hu.1, hu.2]
          have : encStep meanMonths (uniform rs).1 ≤ max (1 / 2) (meanMonths / 12 + 1 / 8) :=
            max_le_max (le_refl _) h2
          linarith [this]
    · simp [encSeries, if_pos, h]

end MSim

/-- C3 counterexample: at `startAge = 30` (< 40) the code selects a
14-month cadence, not the claimed 18; the largest possible jittered gap
for an 18-month cadence is 13/8 years (jitter +1.5 months), not
18/12 + 1/4 (jitter +3 months); and a series whose uniform draw is 1/10
begins at `startAge + 0.25`, not `startAge + u`. -/
theorem C3_counterexample :
    MSim.simCadence 30 = 14 ∧ (14 : ℚ) ≠ 18
    ∧ MSim.encStep 18 1 = 13 / 8 ∧ (13 / 8 : ℚ) ≠ 18 / 12 + 1 / 4
    ∧ MSim.scheduleEncounterSeries 1 30 (30 + 1 / 10) 18 0 = [121 / 4]
    ∧ (121 / 4 : ℚ) ≠ 30 + 1 / 10 := by
  refine ⟨?_, by norm_num, ?_, by norm_num, ?_, by norm_num⟩
  · unfold MSim.simCadence
    norm_num
  · unfold MSim.encStep
    rw [max_eq_right (by norm_num)]
    norm_num
  · unfold MSim.scheduleEncounterSeries
    rw [max_eq_right (by norm_num)]
    simp only [MSim.encSeries, MSim.encHorizon]
    rw [if_pos (by norm_num)]
    norm_num

/-- C3 amended: the routine-encounter cadence is 14 months when
`startAge < 40`, 10 months when `startAge ≥ 65`, and 18 months
otherwise; the series begins at `max(startAge + uniform(0,1),
startAge + 0.25)`; each inter-encounter gap is
`max(0.5, m/12 + (u − ½)·¼)` years — a jitter of ±1.5 months floored at
half a year — and the series runs while the next time is below
`min(115, startAge + 35)`. -/
theorem C3_amended_encounter_series :
    (∀ a : ℚ, a < 40 → MSim.simCadence a = 14)
    ∧ (∀ a : ℚ, 65 ≤ a → MSim.simCadence a = 10)
    ∧ (∀ a : ℚ, 40 ≤ a → a < 65 → MSim.simCadence a = 18)
    ∧ (∀ (fuel : ℕ) (sa beginAge mm : ℚ) (rs : ℕ),
        MSim.scheduleEncounterSeries fuel sa beginAge mm rs
          = MSim.encSeries sa mm fuel (max beginAge (sa + 1 / 4)) rs)
    ∧ (∀ (fuel : ℕ) (sa mm nxt : ℚ) (rs : ℕ),
        ∀ t ∈ MSim.encSeries sa mm fuel nxt rs, nxt ≤ t ∧ t < min 115 (sa + 35))
    ∧ (∀ (fuel : ℕ) (sa mm nxt : ℚ) (rs : ℕ),
        List.Chain' (fun a b =>
            max (1 / 2) (mm / 12 - 1 / 8) ≤ b - a
              ∧ b - a ≤ max (1 / 2) (mm / 12 + 1 / 8))
          (MSim.encSeries sa mm fuel nxt rs)) := by
  refine ⟨?_, ?_, ?_, fun _ _ _ _ _ => rfl, ?_, fun fuel sa mm nxt rs =>
    MSim.encSeries_chain sa mm fuel nxt rs⟩
  · intro a ha
    unfold MSim.simCadence
    rw [if_pos ha, if_neg (by linarith)]
  · intro a ha
    unfold MSim.simCadence
    rw [if_pos ha]
  · intro a ha1 ha2
    unfold MSim.simCadence
    rw [if_neg (by linarith), if_neg (by linarith)]
  · intro fuel sa mm nxt rs t ht
    exact MSim.encSeries_mem_bounds sa mm fuel nxt rs t ht

/-- Witness for C3 amended at concrete ages and a two-step series. -/
theorem C3_amended_encounter_series_witness :
    ((30 : ℚ) < 40 ∧ MSim.simCadence 30 = 14)
    ∧ ((70 : ℚ) ≥ 65 ∧ MSim.simCadence 70 = 10)
    ∧ ((50 : ℚ) ≥ 40 ∧ (50 : ℚ) < 65 ∧ MSim.simCadence 50 = 18)
    ∧ (∀ t ∈ MSim.encSeries 30 18 3 (121 / 4) 0, (121 / 4 : ℚ) ≤ t ∧ t < min 115 (30 + 35)) :=
  ⟨⟨by norm_num, C3_amended_encounter_series.1 30 (by norm_num)⟩,
   ⟨by norm_num, C3_amended_encounter_series.2.1 70 (by norm_num)⟩,
   ⟨by norm_num, by norm_num, C3_amended_encounter_series.2.2.1 50 (by norm_num) (by norm_num)⟩,
   C3_amended_encounter_series.2.2.2.2.1 3 30 18 (121 / 4) 0⟩

/-! ## The event-driven kernel (`src/kernel.ts`)

Shallow embedding of `KernelState`.  Hazards, watcher reactions,
`onFire` handlers and scheduled thunks are modelled as Lean functions
(they are arbitrary user callbacks in the source); the exponential
sampler `localRng.expo(lambda)` together with the `Number.isFinite`
check on the sampled delay is kept abstract as a parameter
`expoDelta : rng-state → rate → Option delay` because its value involves
a transcendental logarithm (`none` models a non-finite delay). -/

namespace Kernel

/-- A clinical event record.  Modelled from the spec: the `events.ts`
type module is not among the sources; the spec gives the shape
`{ id, pid, time, kind, relatesTo?, meta }` with string-keyed metadata. -/
structure ClinicalEvent where
  id : String
  pid : String
  t : ℚ
  kind : String
  relatesTo : Option String := none
  meta : List (String × String) := []
deriving DecidableEq

/-- An attribute value (`number | boolean | string`). -/
inductive AttrVal where
  | num (q : ℚ)
  | str (s : String)
  | bool (b : Bool)
deriving DecidableEq

/-- A snapshot `{ attrs, diseases }` handed to hazards and watchers. -/
structure Snapshot where
  attrs : List (String × AttrVal)
  diseases : List (String × String)
deriving DecidableEq

/-- The part of `Ctx` the modelled callbacks read: `pid`, `now` and a
fresh snapshot. -/
structure CtxView where
  pid : String
  now : ℚ
  snap : Snapshot

/-- The `Effect` sum type.  `modifyHazard` carries the modifier function
and the optional finite `until`; the source's two skip conditions
(`until == null` and `!Number.isFinite(until)`) both collapse to
`none`.  `schedule` carries the user thunk. -/
inductive Effect where
  | emit (event : ClinicalEvent)
  | setAttr (key : String) (value : AttrVal)
  | setDisease (disease : String) (state : String)
  | modifyHazard (process : String) (modifierId : String)
      (apply : ℚ → Snapshot → ℚ → ℚ) (untilT : Option ℚ)
  | schedule (atTime : ℚ) (thunk : CtxView → List Effect)

/-- The explanation detail captured with a transition item (the
`explanation` field only feeds the explain printer and is omitted). -/
structure TransitionDetail where
  baseRate : ℚ
  finalRate : ℚ
  modifiers : List (String × ℚ)

/-- A transition `(from, to, hazard, onFire?)`; `hazard` receives the
snapshot, the time and the child RNG state and returns the rate together
with the RNG state after its internal draws. -/
structure Transition where
  fromState : String
  toState : String
  hazard : Snapshot → ℚ → ℕ → ℚ × ℕ
  onFire : Option (CtxView → List Effect) := none

/-- A watcher `(id, match, react)`. -/
structure Watcher where
  id : String
  matchE : ClinicalEvent → Bool
  react : ClinicalEvent → CtxView → List Effect

/-- A machine; an absent `modifiers` catalog is the empty list. -/
structure Machine where
  id : String
  initial : String
  transitions : List Transition
  watches : List Watcher := []
  modifiers : List (String × (ℚ → Snapshot → ℚ → ℚ)) := []

/-- An installed modifier entry `{ apply, token }`. -/
structure ModEntry where
  apply : ℚ → Snapshot → ℚ → ℚ
  token : ℕ

/-- A machine runtime `{ state, version }`. -/
structure MachineRuntime where
  state : String
  version : ℕ
deriving DecidableEq

/-- A queued thunk: either the removal closure created by the
`modifyHazard` case of `applyEffects` (capturing the token), or a user
thunk from a `schedule` effect. -/
inductive QThunk where
  | removeMod (process : String) (modifierId : String) (token : ℕ)
  | user (run : CtxView → List Effect)

/-- A scheduled item. -/
inductive SItem where
  | transition (time : ℚ) (machineId : String) (transitionIndex : ℕ) (version : ℕ)
      (detail : TransitionDetail)
  | thunk (time : ℚ) (th : QThunk)

def SItem.time : SItem → ℚ
  | .transition t _ _ _ _ => t
  | .thunk t _ => t

/-- A `MinQueue` entry `{ time, seq, item }`. -/
structure QEntry where
  time : ℚ
  seq : ℕ
  item : SItem

/-- `MinQueue.push` = binary insertion before the first entry with a
strictly later time (existing sequence numbers are all smaller than the
fresh one, so the `(time, seq)` comparison degenerates to this). -/
def pqInsert (e : QEntry) : List QEntry → List QEntry
  | [] => [e]
  | x :: xs => if x.time ≤ e.time then x :: pqInsert e xs else e :: x :: xs

/-- The kernel state. -/
structure KernelState where
  pid : String
  now : ℚ
  horizon : ℚ
  baseRng : ℕ
  ageBase : ℚ
  attrs : List (String × AttrVal)
  diseases : List (String × String)
  machines : List (String × Machine)
  runtimes : List (String × MachineRuntime)
  modifiers : List (String × List (String × ModEntry))
  watchers : List Watcher
  pqData : List QEntry
  pqSeq : ℕ
  events : List ClinicalEvent
  modifierToken : ℕ

def KernelState.snapshot (st : KernelState) : Snapshot := ⟨st.attrs, st.diseases⟩

def KernelState.ctxView (st : KernelState) : CtxView := ⟨st.pid, st.now, st.snapshot⟩

/-- `advanceTo(t)`: set `now` and rewrite the age attributes. -/
def KernelState.advanceTo (st : KernelState) (time : ℚ) : KernelState :=
  let age := st.ageBase + time / 365
  { st with now := time,
            attrs := alistSet ("AGE_YEARS") (AttrVal.num age)
              (alistSet ("ageYr") (AttrVal.num age) st.attrs) }

def KernelState.enqueue (st : KernelState) (item : SItem) : KernelState :=
  { st with pqData := pqInsert ⟨item.time, st.pqSeq, item⟩ st.pqData,
            pqSeq := st.pqSeq + 1 }

def KernelState.popQ (st : KernelState) : Option (QEntry × KernelState) :=
  match st.pqData with
  | [] => none
  | e :: rest => some (e, { st with pqData := rest })

/-- The modifier fold inside `scheduleMachine`: apply entries in
insertion order, breaking (with rate zero recorded) as soon as a
modifier drives the rate non-positive. -/
def applyMods (snap : Snapshot) (now : ℚ) : List (String × ModEntry) → ℚ →
    List (String × ℚ) → ℚ × List (String × ℚ)
  | [], lam, acc => (lam, acc)
  | (id, entry) :: rest, lam, acc =>
    let l' := entry.apply lam snap now
    if l' > 0 then applyMods snap now rest l' (acc ++ [(id, l')])
    else (0, acc ++ [(id, 0)])

variable (expoDelta : ℕ → ℚ → Option ℚ)

/-- The candidate scan of `scheduleMachine`: walk the transitions whose
`from` matches the current state (`index` is the position in that
filtered list, as in the source), derive the child RNG from the name
`"<machineId>:v<version>:t<index>"`, evaluate the hazard and the
modifiers, sample the delay, and keep the earliest candidate (strict
comparison: ties keep the earlier index). -/
def bestCandidate (baseRng : ℕ) (now : ℚ) (machineId : String) (version : ℕ)
    (snap : Snapshot) (mods : List (String × ModEntry)) :
    List Transition → ℕ → Option (ℚ × ℕ × TransitionDetail) →
      Option (ℚ × ℕ × TransitionDetail)
  | [], _, best => best
  | tr :: rest, index, best =>
    let name := machineId ++ ":v" ++ toString version ++ ":t" ++ toString index
    let localRng := KRng.child baseRng name
    let hz := tr.hazard snap now localRng
    let best' :=
      if hz.1 > 0 then
        let ml := applyMods snap now mods hz.1 []
        if ml.1 > 0 then
          match expoDelta hz.2 ml.1 with
          | some delta =>
            let eventTime := now + delta
            let detail : TransitionDetail := ⟨hz.1, ml.1, ml.2⟩
            match best with
            | none => some (eventTime, index, detail)
            | some b => if eventTime < b.1 then some (eventTime, index, detail) else best
          | none => best
        else best
      else best
    bestCandidate baseRng now machineId version snap mods rest (index + 1) best'

/-- `scheduleMachine(machineId)`: bump the version, scan the
transitions leaving the current state, and enqueue the earliest
candidate with the captured version. -/
def scheduleMachine (st : KernelState) (machineId : String) : KernelState :=
  match alistGet machineId st.machines, alistGet machineId st.runtimes with
  | some machine, some runtime =>
    let version := runtime.version + 1
    let st1 := { st with
      runtimes := alistSet machineId { runtime with version := version } st.runtimes }
    let filtered := machine.transitions.filter (fun t => t.fromState == runtime.state)
    if filtered.isEmpty then st1
    else
      match bestCandidate expoDelta st1.baseRng st1.now machineId version st1.snapshot
          ((alistGet machineId st1.modifiers).getD []) filtered 0 none with
      | some c => st1.enqueue (SItem.transition c.1 machineId c.2.1 version c.2.2)
      | none => st1
  | _, _ => st

/-- `setDisease(id, state)`: no-op when unchanged, otherwise update the
map and the runtime, bump the version and reschedule. -/
def setDiseaseOp (st : KernelState) (id state : String) : KernelState :=
  if alistGet id st.diseases = some state then st
  else
    let st1 := { st with diseases := alistSet id state st.diseases }
    match alistGet id st1.runtimes with
    | none => st1
    | some runtime =>
      let st2 := { st1 with
        runtimes := alistSet id ⟨state, runtime.version + 1⟩ st1.runtimes }
      scheduleMachine expoDelta st2 id

/-- `addModifier(process, modifierId, apply)`: install under a fresh
token (`modifierToken++`), reschedule, return the token. -/
def addModifierOp (st : KernelState) (process modifierId : String)
    (apply : ℚ → Snapshot → ℚ → ℚ) : KernelState × ℕ :=
  let token := st.modifierToken
  let bucket := (alistGet process st.modifiers).getD []
  let st1 := { st with
    modifiers := alistSet process (alistSet modifierId ⟨apply, token⟩ bucket) st.modifiers,
    modifierToken := st.modifierToken + 1 }
  (scheduleMachine expoDelta st1 process, token)

/-- `removeModifier(process, modifierId, expectedToken)`: remove only
when the stored token matches, dropping the bucket when it empties, then
reschedule; otherwise leave the state untouched. -/
def removeModifierOp (st : KernelState) (process modifierId : String)
    (expectedToken : ℕ) : KernelState :=
  match alistGet process st.modifiers with
  | none => st
  | some bucket =>
    match alistGet modifierId bucket with
    | none => st
    | some entry =>
      if entry.token = expectedToken then
        let bucket' := alistRemove modifierId bucket
        let newMods := if bucket'.isEmpty then alistRemove process st.modifiers
          else alistSet process bucket' st.modifiers
        let st1 := { st with modifiers := newMods }
        scheduleMachine expoDelta st1 process
      else st

/-- One effect as `applyEffects` processes it.  `emit` appends the event
and dispatches every watcher in turn, each matching watcher's effects
being applied at once through `recur` — the recursive `applyEffects`
call of the source (NOT an append to the pending queue). -/
def applyEffStep (recur : List Effect → KernelState → KernelState)
    (st : KernelState) : Effect → KernelState
  | .emit e =>
    let st1 := { st with events := st.events ++ [e] }
    st1.watchers.foldl (fun s w =>
      if w.matchE e then recur (w.react e s.ctxView) s else s) st1
  | .setAttr k v => { st with attrs := alistSet k v st.attrs }
  | .setDisease d s => setDiseaseOp expoDelta st d s
  | .modifyHazard p mid apply untilT =>
    let r := addModifierOp expoDelta st p mid apply
    match untilT with
    | some u => r.1.enqueue (SItem.thunk u (QThunk.removeMod p mid r.2))
    | none => r.1
  | .schedule atT th => st.enqueue (SItem.thunk (max atT st.now) (QThunk.user th))

/-- `applyEffects(list)`: process the list left to right.  The fuel
bounds the depth of watcher-dispatch recursion (unbounded in the
source); at fuel zero nothing is processed. -/
def applyEffects : ℕ → List Effect → KernelState → KernelState
  | 0, _, st => st
  | n + 1, effs, st => effs.foldl (applyEffStep expoDelta (applyEffects n)) st

/-- A fired transition, recorded for specification purposes (the state
evolution does not depend on this trace). -/
structure Fire where
  machineId : String
  version : ℕ
  fromState : String
  toState : String
  time : ℚ
deriving DecidableEq

/-- Run one queued thunk: the `modifyHazard` removal closure calls
`removeModifier` with its captured token and returns no effects; a user
thunk returns effects which are applied. -/
def runThunk (effFuel : ℕ) (th : QThunk) (st : KernelState) : KernelState :=
  match th with
  | .removeMod p mid tok => removeModifierOp expoDelta st p mid tok
  | .user f => applyEffects expoDelta effFuel (f st.ctxView) st

/-- The body of one loop iteration of `run()` on an already-popped item
whose time is within the horizon: advance `now`, then either process the
transition item (firing only when the captured version matches the
runtime version and the transition's `from` matches the runtime state;
any mismatch is a bare `continue`, i.e. a discard) or run the thunk.
Returns the successor state and the fired transition, if any (recorded
for specification purposes only; the source logs it when `explain` is
set). -/
def stepState (effFuel : ℕ) (entry : QEntry) (st1 : KernelState) :
    KernelState × Option Fire :=
  let st2 := st1.advanceTo entry.time
  match entry.item with
  | SItem.transition _ machineId transitionIndex version _ =>
    match alistGet machineId st2.runtimes with
    | none => (st2, none)
    | some runtime =>
      if version = runtime.version then
        match alistGet machineId st2.machines with
        | none => (st2, none)
        | some machine =>
          match machine.transitions.get? transitionIndex with
          | none => (st2, none)
          | some transition =>
            if transition.fromState = runtime.state then
              let st3 := { st2 with
                runtimes := alistSet machineId
                  ⟨transition.toState, runtime.version + 1⟩ st2.runtimes,
                diseases := alistSet machineId transition.toState st2.diseases }
              let st4 := match transition.onFire with
                | some f => applyEffects expoDelta effFuel (f st3.ctxView) st3
                | none => st3
              (scheduleMachine expoDelta st4 machineId,
                some ⟨machineId, version, transition.fromState, transition.toState,
                  entry.time⟩)
            else (st2, none)
      else (st2, none)
  | SItem.thunk _ th => (runThunk expoDelta effFuel th st2, none)

/-- The main loop of `run()`.  Returns the final state, the trace of
fired transitions, and the trace of times passed to `advanceTo` (one per
processed item).  A popped item beyond the horizon halts the loop
without being processed. -/
def runLoop (effFuel : ℕ) : ℕ → KernelState → KernelState × List Fire × List ℚ
  | 0, st => (st, [], [])
  | fuel + 1, st =>
    match st.popQ with
    | none => (st, [], [])
    | some (entry, st1) =>
      if entry.time > st1.horizon then (st1, [], [])
      else
        let s := stepState expoDelta effFuel entry st1
        let r := runLoop effFuel fuel s.1
        (r.1, s.2.elim r.2.1 (fun fr => fr :: r.2.1), entry.time :: r.2.2)

end Kernel

/-! ## Kernel invariant infrastructure -/

namespace Kernel

variable (expoDelta : ℕ → ℚ → Option ℚ)

/-- The fields a kernel run never rewrites (readonly in the source). -/
def statEq (a b : KernelState) : Prop :=
  a.pid = b.pid ∧ a.horizon = b.horizon ∧ a.baseRng = b.baseRng
    ∧ a.ageBase = b.ageBase ∧ a.machines = b.machines ∧ a.watchers = b.watchers

theorem statEq_refl (a : KernelState) : statEq a a :=
  ⟨rfl, rfl, rfl, rfl, rfl, rfl⟩

theorem statEq_trans {a b c : KernelState} (h1 : statEq a b) (h2 : statEq b c) :
    statEq a c := by
  obtain ⟨p1, h1', b1, g1, m1, w1⟩ := h1
  obtain ⟨p2, h2', b2, g2, m2, w2⟩ := h2
  exact ⟨p1.trans p2, h1'.trans h2', b1.trans b2, g1.trans g2, m1.trans m2, w1.trans w2⟩

theorem statEq_advanceTo (st : KernelState) (t : ℚ) : statEq (st.advanceTo t) st :=
  ⟨rfl, rfl, rfl, rfl, rfl, rfl⟩

theorem statEq_enqueue (st : KernelState) (i : SItem) : statEq (st.enqueue i) st :=
  ⟨rfl, rfl, rfl, rfl, rfl, rfl⟩

theorem statEq_scheduleMachine (st : KernelState) (mid : String) :
    statEq (scheduleMachine expoDelta st mid) st := by
  unfold scheduleMachine
  split
  · dsimp only
    split
    · exact statEq_refl _
    · split
      · exact statEq_enqueue _ _
      · exact statEq_refl _
  · exact statEq_refl st

theorem now_scheduleMachine (st : KernelState) (mid : String) :
    (scheduleMachine expoDelta st mid).now = st.now := by
  unfold scheduleMachine
  split
  · dsimp only
    split
    · rfl
    · split <;> rfl
  · rfl

theorem statEq_setDiseaseOp (st : KernelState) (d s : String) :
    statEq (setDiseaseOp expoDelta st d s) st := by
  unfold setDiseaseOp
  split
  · exact statEq_refl st
  · dsimp only
    split
    · exact statEq_refl _
    · exact statEq_trans (statEq_scheduleMachine _ _ _) (statEq_refl _)

theorem now_setDiseaseOp (st : KernelState) (d s : String) :
    (setDiseaseOp expoDelta st d s).now = st.now := by
  unfold setDiseaseOp
  split
  · rfl
  · dsimp only
    split
    · rfl
    · rw [now_scheduleMachine]

theorem statEq_addModifierOp (st : KernelState) (p mid : String)
    (apply : ℚ → Snapshot → ℚ → ℚ) :
    statEq (addModifierOp expoDelta st p mid apply).1 st := by
  unfold addModifierOp
  dsimp only
  exact statEq_trans (statEq_scheduleMachine _ _ _) (statEq_refl _)

theorem now_addModifierOp (st : KernelState) (p mid : String)
    (apply : ℚ → Snapshot → ℚ → ℚ) :
    (addModifierOp expoDelta st p mid apply).1.now = st.now := by
  unfold addModifierOp
  dsimp only
  rw [now_scheduleMachine]

theorem statEq_removeModifierOp (st : KernelState) (p mid : String) (tok : ℕ) :
    statEq (removeModifierOp expoDelta st p mid tok) st := by
  unfold removeModifierOp
  split
  · exact statEq_refl st
  · split
    · exact statEq_refl st
    · dsimp only
      split
      · exact statEq_trans (statEq_scheduleMachine _ _ _) (statEq_refl _)
      · exact statEq_refl st

theorem now_removeModifierOp (st : KernelState) (p mid : String) (tok : ℕ) :
    (removeModifierOp expoDelta st p mid tok).now = st.now := by
  unfold removeModifierOp
  split
  · rfl
  · split
    · rfl
    · dsimp only
      split
      · rw [now_scheduleMachine]
      · rfl

theorem statEq_dispatchFold
    {recur : List Effect → KernelState → KernelState}
    (hrec : ∀ l s, statEq (recur l s) s ∧ (recur l s).now = s.now)
    (ev : ClinicalEvent) :
    ∀ (ws : List Watcher) (st : KernelState),
      statEq (List.foldl (fun s w =>
          if w.matchE ev then recur (w.react ev s.ctxView) s else s) st ws) st
        ∧ (List.foldl (fun s w =>
          if w.matchE ev then recur (w.react ev s.ctxView) s else s) st ws).now = st.now := by
  intro ws
  induction ws with
  | nil => exact fun st => ⟨statEq_refl st, rfl⟩
  | cons w ws ih =>
    intro st
    rw [List.foldl_cons]
    have hstep : statEq (if w.matchE ev then recur (w.react ev st.ctxView) st else st) st
        ∧ (if w.matchE ev then recur (w.react ev st.ctxView) st else st).now = st.now := by
      by_cases h : w.matchE ev
      · simpa [h] using hrec (w.react ev st.ctxView) st
      · simp [h]
        exact statEq_refl st
    exact ⟨statEq_trans (ih _).1 hstep.1, ((ih _).2).trans hstep.2⟩

theorem statEq_applyEffStep
    {recur : List Effect → KernelState → KernelState}
    (hrec : ∀ l s, statEq (recur l s) s ∧ (recur l s).now = s.now)
    (st : KernelState) (e : Effect) :
    statEq (applyEffStep expoDelta recur st e) st
      ∧ (applyEffStep expoDelta recur st e).now = st.now := by
  cases e with
  | emit ev =>
    have h := statEq_dispatchFold hrec ev
      ({ st with events := st.events ++ [ev] } : KernelState).watchers
      { st with events := st.events ++ [ev] }
    exact ⟨statEq_trans h.1 ⟨rfl, rfl, rfl, rfl, rfl, rfl⟩, h.2⟩
  | setAttr k v => exact ⟨⟨rfl, rfl, rfl, rfl, rfl, rfl⟩, rfl⟩
  | setDisease d s => exact ⟨statEq_setDiseaseOp _ _ _ _, now_setDiseaseOp _ _ _ _⟩
  | modifyHazard p mid apply untilT =>
    cases untilT with
    | some u =>
      exact ⟨statEq_trans (statEq_enqueue _ _) (statEq_addModifierOp _ _ _ _ _),
        now_addModifierOp _ _ _ _ _⟩
    | none => exact ⟨statEq_addModifierOp _ _ _ _ _, now_addModifierOp _ _ _ _ _⟩
  | schedule atT th => exact ⟨statEq_enqueue _ _, rfl⟩

end Kernel

namespace Kernel

variable (expoDelta : ℕ → ℚ → Option ℚ)

theorem statEq_applyEffects (n : ℕ) :
    ∀ (effs : List Effect) (st : KernelState),
      statEq (applyEffects expoDelta n effs st) st
        ∧ (applyEffects expoDelta n effs st).now = st.now := by
  induction n with
  | zero => exact fun effs st => ⟨statEq_refl st, rfl⟩
  | succ k ih =>
    intro effs
    induction effs with
    | nil => exact fun st => ⟨statEq_refl st, rfl⟩
    | cons e rest ihe =>
      intro st
      show statEq (List.foldl _ _ (e :: rest)) st ∧ _
      rw [List.foldl_cons]
      have hstep := statEq_applyEffStep expoDelta (fun l s => ih l s) st e
      have hrest := ihe (applyEffStep expoDelta (applyEffects expoDelta k) st e)
      exact ⟨statEq_trans hrest.1 hstep.1, (hrest.2).trans hstep.2⟩

theorem statEq_runThunk (effFuel : ℕ) (th : QThunk) (st : KernelState) :
    statEq (runThunk expoDelta effFuel th st) st
      ∧ (runThunk expoDelta effFuel th st).now = st.now := by
  cases th with
  | removeMod p mid tok =>
    exact ⟨statEq_removeModifierOp _ _ _ _ _, now_removeModifierOp _ _ _ _ _⟩
  | user f => exact statEq_applyEffects expoDelta effFuel _ st

theorem statEq_popQ {st : KernelState} {entry : QEntry} {st' : KernelState}
    (h : st.popQ = some (entry, st')) : statEq st' st := by
  unfold KernelState.popQ at h
  rcases hd : st.pqData with _ | ⟨e, rest⟩
  · rw [hd] at h; exact absurd h (by simp)
  · rw [hd] at h
    simp at h
    rw [← h.2]
    exact ⟨rfl, rfl, rfl, rfl, rfl, rfl⟩

theorem statEq_stepState (effFuel : ℕ) (entry : QEntry) (st1 : KernelState) :
    statEq (stepState expoDelta effFuel entry st1).1 st1
      ∧ (stepState expoDelta effFuel entry st1).1.now = entry.time := by
  unfold stepState
  cases entry.item with
  | transition t0 machineId transitionIndex version detail =>
    dsimp only
    rcases alistGet machineId (st1.advanceTo entry.time).runtimes with _ | runtime
    · exact ⟨statEq_advanceTo st1 entry.time, rfl⟩
    · dsimp only
      by_cases hver : version = runtime.version
      · rw [if_pos hver]
        rcases alistGet machineId (st1.advanceTo entry.time).machines with _ | machine
        · exact ⟨statEq_advanceTo st1 entry.time, rfl⟩
        · dsimp only
          rcases machine.transitions.get? transitionIndex with _ | transition
          · exact ⟨statEq_advanceTo st1 entry.time, rfl⟩
          · dsimp only
            by_cases hfrom : transition.fromState = runtime.state
            · rw [if_pos hfrom]
              dsimp only
              have hmid : statEq (match transition.onFire with
                  | some f => applyEffects expoDelta effFuel
                      (f { (st1.advanceTo entry.time) with
                          runtimes := alistSet machineId
                            ⟨transition.toState, runtime.version + 1⟩
                              (st1.advanceTo entry.time).runtimes,
                          diseases := alistSet machineId transition.toState
                            (st1.advanceTo entry.time).diseases }.ctxView)
                      { (st1.advanceTo entry.time) with
                          runtimes := alistSet machineId
                            ⟨transition.toState, runtime.version + 1⟩
                              (st1.advanceTo entry.time).runtimes,
                          diseases := alistSet machineId transition.toState
                            (st1.advanceTo entry.time).diseases }
                  | none => { (st1.advanceTo entry.time) with
                      runtimes := alistSet machineId
                        ⟨transition.toState, runtime.version + 1⟩
                          (st1.advanceTo entry.time).runtimes,
                      diseases := alistSet machineId transition.toState
                        (st1.advanceTo entry.time).diseases }) (st1.advanceTo entry.time)
                  ∧ (match transition.onFire with
                  | some f => applyEffects expoDelta effFuel
                      (f { (st1.advanceTo entry.time) with
                          runtimes := alistSet machineId
                            ⟨transition.toState, runtime.version + 1⟩
                              (st1.advanceTo entry.time).runtimes,
                          diseases := alistSet machineId transition.toState
                            (st1.advanceTo entry.time).diseases }.ctxView)
                      { (st1.advanceTo entry.time) with
                          runtimes := alistSet machineId
                            ⟨transition.toState, runtime.version + 1⟩
                              (st1.advanceTo entry.time).runtimes,
                          diseases := alistSet machineId transition.toState
                            (st1.advanceTo entry.time).diseases }
                  | none => { (st1.advanceTo entry.time) with
                      runtimes := alistSet machineId
                        ⟨transition.toState, runtime.version + 1⟩
                          (st1.advanceTo entry.time).runtimes,
                      diseases := alistSet machineId transition.toState
                        (st1.advanceTo entry.time).diseases }).now
                    = (st1.advanceTo entry.time).now := by
                rcases transition.onFire with _ | f
                · exact ⟨⟨rfl, rfl, rfl, rfl, rfl, rfl⟩, rfl⟩
                · have h := statEq_applyEffects expoDelta effFuel
                    (f { (st1.advanceTo entry.time) with
                        runtimes := alistSet machineId
                          ⟨transition.toState, runtime.version + 1⟩
                            (st1.advanceTo entry.time).runtimes,
                        diseases := alistSet machineId transition.toState
                          (st1.advanceTo entry.time).diseases }.ctxView)
                    { (st1.advanceTo entry.time) with
                        runtimes := alistSet machineId
                          ⟨transition.toState, runtime.version + 1⟩
                            (st1.advanceTo entry.time).runtimes,
                        diseases := alistSet machineId transition.toState
                          (st1.advanceTo entry.time).diseases }
                  exact ⟨statEq_trans h.1 ⟨rfl, rfl, rfl, rfl, rfl, rfl⟩, h.2⟩
              constructor
              · exact statEq_trans (statEq_trans (statEq_scheduleMachine _ _ _) hmid.1)
                  (statEq_advanceTo st1 entry.time)
              · rw [now_scheduleMachine]
                exact hmid.2
            · rw [if_neg hfrom]
              exact ⟨statEq_advanceTo st1 entry.time, rfl⟩
      · rw [if_neg hver]
        exact ⟨statEq_advanceTo st1 entry.time, rfl⟩
  | thunk t0 th =>
    dsimp only
    exact ⟨statEq_trans (statEq_runThunk expoDelta effFuel th _).1
        (statEq_advanceTo st1 entry.time),
      (statEq_runThunk expoDelta effFuel th _).2⟩

theorem statEq_runLoop (effFuel : ℕ) :
    ∀ (fuel : ℕ) (st : KernelState),
      statEq (runLoop expoDelta effFuel fuel st).1 st := by
  intro fuel
  induction fuel with
  | zero => exact fun st => statEq_refl st
  | succ k ih =>
    intro st
    show statEq (match st.popQ with
      | none => (st, ([] : List Fire), ([] : List ℚ))
      | some (entry, st1) => _).1 st
    rcases hpop : st.popQ with _ | ⟨entry, st1⟩
    · exact statEq_refl st
    · have hs1 : statEq st1 st := statEq_popQ hpop
      dsimp only
      split
      · exact hs1
      · exact statEq_trans (statEq_trans (ih _)
          (statEq_stepState expoDelta effFuel entry st1).1) hs1

end Kernel

namespace Kernel

variable (expoDelta : ℕ → ℚ → Option ℚ)

end Kernel

namespace Kernel

end Kernel

namespace Kernel

variable (expoDelta : ℕ → ℚ → Option ℚ)

end Kernel

namespace Kernel

variable (expoDelta : ℕ → ℚ → Option ℚ)

end Kernel

namespace Kernel

variable (expoDelta : ℕ → ℚ → Option ℚ)

/-- The current version of a machine runtime (0 when absent; a machine
without a runtime can never fire). -/
def versionOf (st : KernelState) (m : String) : ℕ :=
  match alistGet m st.runtimes with
  | some r => r.version
  | none => 0

theorem versionOf_set (st : KernelState) (mid : String) (rt : MachineRuntime) (m : String) :
    versionOf { st with runtimes := alistSet mid rt st.runtimes } m
      = if mid = m then rt.version else versionOf st m := by
  unfold versionOf
  by_cases h : mid = m
  · subst h
    rw [alistGet_set_self, if_pos rfl]
  · rw [alistGet_set_ne _ _ _ _ h, if_neg h]

end Kernel

namespace Kernel

variable (expoDelta : ℕ → ℚ → Option ℚ)

end Kernel

namespace Kernel

variable (expoDelta : ℕ → ℚ → Option ℚ)

end Kernel

namespace Kernel

variable (expoDelta : ℕ → ℚ → Option ℚ)

end Kernel

namespace Kernel

variable (expoDelta : ℕ → ℚ → Option ℚ)

end Kernel

namespace Kernel

variable (expoDelta : ℕ → ℚ → Option ℚ)

end Kernel

namespace Kernel

variable (expoDelta : ℕ → ℚ → Option ℚ)

end Kernel

set_option maxHeartbeats 2000000

